import Mathlib

/- Verification of the cf-lvl problem picker.

Shallow embedding of the candidate-selection engine in src/utils.rs,
src/codeforces.rs, src/atcoder.rs and src/main.rs, together with theorems
settling the specification claims.  Remote fetches are abstracted by passing
the fetched collections as arguments; strings are compared through their
character lists, which matches the byte-wise `Ord` of Rust's `String` because
UTF-8 byte order coincides with code-point order. -/

/-- Substring test on character lists, modelling Rust `str::contains` with a
plain string needle. -/
def contains_seg (hay needle : List Char) : Bool :=
  (List.range (hay.length + 1)).any (fun i => needle.isPrefixOf (hay.drop i))

/-- First 200 characters of a response body, modelling
`text.chars().take(200).collect::<String>()`. -/
def snippet (t : String) : String :=
  String.mk (t.toList.take 200)

/-- HTTP success test modelling `reqwest::StatusCode::is_success` (2xx). -/
def status_success (status : Nat) : Bool :=
  200 ≤ status && status < 300

/-- Whitespace trim at both ends, modelling `str::trim`. -/
def trim_chars (l : List Char) : List Char :=
  ((l.dropWhile Char.isWhitespace).reverse.dropWhile Char.isWhitespace).reverse

/-- JSON values as far as `parse_json_payload` inspects them: arrays, objects
(finite key-value association lists) and the remaining scalar shapes. -/
inductive Json where
  | num (n : Int)
  | str (s : String)
  | bool (b : Bool)
  | null
  | arr (elems : List Json)
  | obj (kvs : List (String × Json))

/-- Per-element decoding with fail-fast semantics, modelling
`items.into_iter().map(serde_json::from_value).collect::<Result<Vec<T>, _>>()`:
the first element error aborts and is returned unchanged. -/
def decode_items {α : Type} (dec : Json → Except String α) :
    List Json → Except String (List α)
  | [] => .ok []
  | x :: xs =>
    match dec x with
    | .error e => .error e
    | .ok v =>
      match decode_items dec xs with
      | .error e => .error e
      | .ok vs => .ok (v :: vs)

/-- Ordering of object entries by key: `serde_json`'s default map is a
`BTreeMap`, so `map.into_iter()` yields entries in ascending key order. -/
def key_le (a b : String × Json) : Prop :=
  a.1.toList ≤ b.1.toList

instance : DecidableRel key_le := fun a b =>
  inferInstanceAs (Decidable (a.1.toList ≤ b.1.toList))

/-- The value sequence an object-shaped payload is normalized to (keys
discarded, entries visited in ascending key order). -/
def obj_values (kvs : List (String × Json)) : List Json :=
  (List.insertionSort key_le kvs).map Prod.snd

namespace Utils

/-- Shallow embedding of `utils::parse_json_payload`.  The HTTP response is
represented by its status code and body text; the external
`serde_json::from_str` parser is the parameter `jparse` and the per-element
`serde_json::from_value` decoder of the target type is the parameter `dec`. -/
def parse_json_payload {α : Type} (jparse : String → Except String Json)
    (dec : Json → Except String α) (label : String)
    (status : Nat) (text : String) : Except String (List α) :=
  if status_success status = false then
    .error ("Failed to fetch " ++ label ++ ": HTTP " ++ toString status ++
      ". Response starts with: " ++ snippet text)
  else
    match jparse text with
    | .error err =>
      .error ("Failed to parse " ++ label ++ " as JSON: " ++ err ++
        ". Response starts with: " ++ snippet text)
    | .ok (Json.arr elems) => decode_items dec elems
    | .ok (Json.obj kvs) => decode_items dec (obj_values kvs)
    | .ok _ =>
      .error ("Unexpected JSON payload for " ++ label ++
        ": expected array or object")

end Utils

/-- Exit status of the process for a handler returning
`Result<(), Box<dyn Error>>`: an `Err` bubbling out of `main` exits non-zero,
`Ok` exits zero. -/
def exit_code {α : Type} : Except String α → Nat
  | .error _ => 1
  | .ok _ => 0

namespace Cf

/-- `codeforces::Problem`. -/
structure Problem where
  contest_id : Nat
  index : String
  rating : Nat
  name : String
  deriving DecidableEq

/-- `codeforces::UnratedProblem`. -/
structure UnratedProblem where
  contest_id : Nat
  index : String
  name : String
  rating : Option Nat
  deriving DecidableEq

/-- `codeforces::Submission`. -/
structure Submission where
  problem : UnratedProblem
  verdict : Option String
  deriving DecidableEq

/-- `codeforces::Contest` (this variant carries no start timestamp). -/
structure Contest where
  id : Nat
  name : String
  deriving DecidableEq

/-- Solved-problem extraction of `codeforces::fetch_user_submissions`: keep
submissions whose verdict is `Some("OK")` and whose embedded problem record
carries a rating.  The Rust function collects into a `HashSet`; the list here
carries the same membership. -/
def fetch_user_submissions (subs : List Submission) : List Problem :=
  subs.filterMap (fun s =>
    if s.verdict = some "OK" then
      s.problem.rating.map (fun r =>
        { contest_id := s.problem.contest_id, index := s.problem.index,
          rating := r, name := s.problem.name })
    else none)

/-- The solved identity set built in `run_level`/`run_index` from the fetched
solved problems. -/
def solved_ids (subs : List Submission) : List (Nat × String) :=
  (fetch_user_submissions subs).map (fun p => (p.contest_id, p.index))

/-- Contest filter of `codeforces::fetch_contests`: the name contains
"Div. 2" and does not contain "Div. 1". -/
def contest_keep (c : Contest) : Bool :=
  contains_seg c.name.toList "Div. 2".toList &&
    !contains_seg c.name.toList "Div. 1".toList

/-- Filter conditions of the `run_level` selection loop: target rating,
eligible contest, unsolved identity (the three `continue` guards). -/
def run_level_qualifies (level : Nat) (div2 : List Nat)
    (solved : List (Nat × String)) (p : Problem) : Bool :=
  p.rating == level * 100 && div2.contains p.contest_id &&
    !(solved.contains (p.contest_id, p.index))

/-- The `run_level` selection loop: scan the catalog, replacing the current
best only when the challenger's contest id is strictly larger
(`Some(cur) if cur.contest_id >= p.contest_id => {}`). -/
def run_level_fold (level : Nat) (div2 : List Nat)
    (solved : List (Nat × String)) :
    List Problem → Option Problem → Option Problem
  | [], best => best
  | p :: ps, best =>
    if run_level_qualifies level div2 solved p then
      match best with
      | some cur =>
        if p.contest_id ≤ cur.contest_id then
          run_level_fold level div2 solved ps (some cur)
        else
          run_level_fold level div2 solved ps (some p)
      | none => run_level_fold level div2 solved ps (some p)
    else run_level_fold level div2 solved ps best

/-- The problem `run_level` selects, if any. -/
def run_level_best (level : Nat) (div2 : List Nat)
    (solved : List (Nat × String)) (catalog : List Problem) : Option Problem :=
  run_level_fold level div2 solved catalog none

/-- Observable outcome of `run_level` (printing and the browser launch are
external collaborators). -/
inductive Outcome where
  | invalidLevel
  | noProblem (target_rating : Nat)
  | found (p : Problem)
  deriving DecidableEq

/-- `codeforces::run_level` with the fetched collections passed in.  Every
non-fetch path of the source returns `Ok(())` — including the out-of-range
level check and the no-candidate case. -/
def run_level (level : Nat) (catalog : List Problem) (div2 : List Nat)
    (solved : List (Nat × String)) : Except String Outcome :=
  if level < 8 ∨ 32 < level then .ok .invalidLevel
  else
    match run_level_best level div2 solved catalog with
    | some p => .ok (.found p)
    | none => .ok (.noProblem (level * 100))

/-- `codeforces::normalize_index`: the trimmed input must be a single ASCII
letter, returned uppercased; anything else is an `Err`. -/
def normalize_index (input : String) : Except String Char :=
  match trim_chars input.toList with
  | [c] =>
    if c.isAlpha then .ok c.toUpper
    else .error "Problem index must be a single letter (e.g., A, B, C)."
  | _ => .error "Problem index must be a single letter (e.g., A, B, C)."

/-- Index test of `codeforces::run_index`: the first character of the index
key, ASCII-uppercased, must equal the normalized letter; later characters are
never inspected. -/
def index_starts_with (letter : Char) (index : String) : Bool :=
  match index.toList with
  | [] => false
  | c :: _ => c.toUpper == letter

/-- Filter conditions of the `run_index` selection loop. -/
def run_index_qualifies (letter : Char) (div2 : List Nat)
    (solved : List (Nat × String)) (p : Problem) : Bool :=
  div2.contains p.contest_id && index_starts_with letter p.index &&
    !(solved.contains (p.contest_id, p.index))

/-- The `client.get(url).send()?.json::<T>()?` pattern used by every
Codeforces fetcher (`fetch_problem_set`, `fetch_contests` and
`fetch_user_submissions`, in codeforces.rs and in their main.rs
counterparts): reqwest's `json` deserializes the body text directly and
never inspects the HTTP status, and a failure surfaces as the
deserializer's own error.  The deserializer is the parameter `jparse`. -/
def send_json {α : Type} (jparse : String → Except String α)
    (_status : Nat) (text : String) : Except String α :=
  jparse text

end Cf

namespace Ac

/-- `atcoder::AtcoderContest`. -/
structure AtcoderContest where
  id : String
  start_epoch_second : Option Nat
  deriving DecidableEq

/-- `atcoder::AtcoderProblem`. -/
structure AtcoderProblem where
  id : String
  contest_id : String
  deriving DecidableEq

/-- `atcoder::AtcoderSubmission`. -/
structure AtcoderSubmission where
  problem_id : String
  result : String
  epoch_second : Nat
  deriving DecidableEq

/-- `CUTOFF_TS`: 2023-01-01 00:00:00 UTC. -/
def CUTOFF_TS : Nat := 1672531200

/-- `atcoder::normalize_index`: trim, ASCII-lowercase, require a single ASCII
letter; anything else is an `Err`.  (A single non-ASCII character occupies
more than one byte in the source's `len() != 1` check and is likewise
rejected there.) -/
def normalize_index (input : String) : Except String String :=
  match (trim_chars input.toList).map Char.toLower with
  | [c] =>
    if c.isAlpha then .ok (String.mk [c])
    else .error "Problem index must be a single letter (e.g., a, b, c)."
  | _ => .error "Problem index must be a single letter (e.g., a, b, c)."

/-- Splitting at every separator occurrence, modelling `str::split(sep)`,
which yields empty segments and always at least one segment. -/
def split_char (sep : Char) : List Char → List (List Char)
  | [] => [[]]
  | c :: rest =>
    if c = sep then [] :: split_char sep rest
    else
      match split_char sep rest with
      | seg :: segs => (c :: seg) :: segs
      | [] => [[c]]

/-- `atcoder::problem_index`: the last `'_'`-separated segment of the problem
id, ASCII-lowercased (`problem_id.split('_').last()`). -/
def problem_index (problem_id : String) : Option String :=
  (split_char '_' problem_id.toList).getLast?.map
    (fun seg => String.mk (seg.map Char.toLower))

/-- `u32::from_str`: an optional leading `'+'`, then at least one digit and
nothing else, with the value below `2^32`; anything else fails. -/
def parse_u32 (s : List Char) : Option Nat :=
  let digits := match s with
    | '+' :: rest => rest
    | _ => s
  if digits ≠ [] ∧ digits.all Char.isDigit then
    let n := digits.foldl (fun acc c => acc * 10 + (c.toNat - 48)) 0
    if n < 4294967296 then some n else none
  else none

/-- `atcoder::contest_number`: strip the leading ASCII-alphabetic prefix and
parse the remainder as `u32`, defaulting to 0 on parse failure. -/
def contest_number (contest_id : String) : Nat :=
  (parse_u32 (contest_id.toList.dropWhile Char.isAlpha)).getD 0

/-- Contest filter of `atcoder::fetch_abc_contests`: the lowercased id starts
with "abc" and the start timestamp is present and before the cutoff.  (Rust's
Unicode `to_lowercase` agrees with per-character ASCII lowercasing on these
identifiers.) -/
def abc_contest_keep (cutoff : Nat) (c : AtcoderContest) : Bool :=
  ("abc".toList.isPrefixOf (c.id.toList.map Char.toLower)) &&
    ((c.start_epoch_second.map (fun ts => decide (ts < cutoff))).getD false)

/-- Candidate filter of `atcoder::run`: the contest is an eligible ABC
contest and the problem's index segment equals the task letter
(whole-segment equality). -/
def candidate_keep (task_letter : String) (abc_contests : List String)
    (p : AtcoderProblem) : Bool :=
  abc_contests.contains p.contest_id &&
    ((problem_index p.id).map (fun idx => idx == task_letter)).getD false

/-- Sort order of `atcoder::run`:
`contest_number(b).cmp(contest_number(a)).then(a.id.cmp(b.id))` not being
`Greater`, i.e. descending contest number then ascending id. -/
def candidate_le (a b : AtcoderProblem) : Prop :=
  contest_number b.contest_id < contest_number a.contest_id ∨
    (contest_number b.contest_id = contest_number a.contest_id ∧
      a.id.toList ≤ b.id.toList)

instance : DecidableRel candidate_le := fun a b =>
  inferInstanceAs (Decidable
    (contest_number b.contest_id < contest_number a.contest_id ∨
      (contest_number b.contest_id = contest_number a.contest_id ∧
        a.id.toList ≤ b.id.toList)))

instance : IsTotal AtcoderProblem candidate_le := by
  constructor
  intro a b
  rcases lt_trichotomy (contest_number a.contest_id) (contest_number b.contest_id)
    with h | h | h
  · exact Or.inr (Or.inl h)
  · rcases le_total a.id.toList b.id.toList with h2 | h2
    · exact Or.inl (Or.inr ⟨h.symm, h2⟩)
    · exact Or.inr (Or.inr ⟨h, h2⟩)
  · exact Or.inl (Or.inl h)

instance : IsTrans AtcoderProblem candidate_le := by
  constructor
  intro a b c hab hbc
  rcases hab with h1 | ⟨h1, h1b⟩ <;> rcases hbc with h2 | ⟨h2, h2b⟩
  · exact Or.inl (lt_trans h2 h1)
  · exact Or.inl (h2 ▸ h1)
  · exact Or.inl (h1 ▸ h2)
  · exact Or.inr ⟨h2.trans h1, le_trans h1b h2b⟩

/-- The candidate list of `atcoder::run` (the `filter` over the fetched
problem catalog). -/
def candidates (task_letter : String) (abc_contests : List String)
    (problems : List AtcoderProblem) : List AtcoderProblem :=
  problems.filter (candidate_keep task_letter abc_contests)

/-- The selection of `atcoder::run`: sort the candidates and take the first
unsolved one. -/
def select (task_letter : String) (abc_contests : List String)
    (solved : List String) (problems : List AtcoderProblem) :
    Option AtcoderProblem :=
  (List.insertionSort candidate_le
      (candidates task_letter abc_contests problems)).find?
    (fun p => !(solved.contains p.id))

/-- Observable outcome of `atcoder::run`. -/
inductive Outcome where
  | found (p : AtcoderProblem)
  | noProblem (task_letter : String)
  deriving DecidableEq

/-- `atcoder::run` with the fetched collections passed in: a malformed index
is an `Err` from `normalize_index` propagated by `?`; the no-candidate case
is `Ok`. -/
def run (index_input : String) (abc_contests : List String)
    (problems : List AtcoderProblem) (solved : List String) :
    Except String Outcome :=
  match normalize_index index_input with
  | .error e => .error e
  | .ok task_letter =>
    match select task_letter abc_contests solved problems with
    | some p => .ok (.found p)
    | none => .ok (.noProblem task_letter)

/-- Accepted problem ids collected from one submissions page. -/
def page_accepted (page : List AtcoderSubmission) : List String :=
  (page.filter (fun s => s.result == "AC")).map (fun s => s.problem_id)

/-- Maximum epoch over a page, started from the current cursor
(`let mut max_epoch = from_second`). -/
def page_max (from_second : Nat) (page : List AtcoderSubmission) : Nat :=
  page.foldl (fun m s => if m < s.epoch_second then s.epoch_second else m)
    from_second

/-- The cursor-pagination loop of `atcoder::fetch_user_submissions`, reading
its successive page responses from a finite list.  Returns the accumulated
accepted ids together with the number of iterations (pages consumed); `none`
means the supplied page list was exhausted with every page still advancing
the cursor. -/
def fetch_user_submissions :
    List (List AtcoderSubmission) → Nat → List String →
    Option (List String × Nat)
  | [], _, _ => none
  | page :: rest, from_second, accepted =>
    if page.isEmpty then some (accepted, 1)
    else
      let accepted2 := accepted ++ page_accepted page
      let m := page_max from_second page
      if m = from_second then some (accepted2, 1)
      else
        match fetch_user_submissions rest (m + 1) accepted2 with
        | some (acc, k) => some (acc, k + 1)
        | none => none

/-- The number of successive pages that are non-empty and advance the
cursor. -/
def advancing_count : List (List AtcoderSubmission) → Nat → Nat
  | [], _ => 0
  | page :: rest, from_second =>
    if page.isEmpty then 0
    else if page_max from_second page = from_second then 0
    else advancing_count rest (page_max from_second page + 1) + 1

end Ac

namespace M

/-- `main::Problem` (this variant carries no name field). -/
structure Problem where
  contest_id : Nat
  index : String
  rating : Nat
  deriving DecidableEq

/-- `main::Contest`, with an optional start timestamp. -/
structure Contest where
  id : Nat
  name : String
  start_time_seconds : Option Nat
  deriving DecidableEq

/-- Contest filter of `main::fetch_contests`: "Div. 2" without "Div. 1", and
a present start timestamp strictly before the cutoff
(`.map(|ts| ts < cutoff_ts).unwrap_or(false)`). -/
def contest_keep (cutoff : Nat) (c : Contest) : Bool :=
  contains_seg c.name.toList "Div. 2".toList &&
    !contains_seg c.name.toList "Div. 1".toList &&
    ((c.start_time_seconds.map (fun ts => decide (ts < cutoff))).getD false)

/-- Eligibility-and-unsolved filter of `main::run_codeforces`. -/
def problem_keep (div2 : List Nat) (solved : List (Nat × String))
    (p : Problem) : Bool :=
  div2.contains p.contest_id && !(solved.contains (p.contest_id, p.index))

/-- Sort order of `main::run_codeforces`: descending contest id
(`sort_by(|a, b| b.contest_id.cmp(&a.contest_id))`). -/
def desc_le (a b : Problem) : Prop :=
  b.contest_id ≤ a.contest_id

instance : DecidableRel desc_le := fun a b =>
  inferInstanceAs (Decidable (b.contest_id ≤ a.contest_id))

instance : IsTotal Problem desc_le :=
  ⟨fun a b => Nat.le_total b.contest_id a.contest_id⟩

instance : IsTrans Problem desc_le :=
  ⟨fun _ _ _ h1 h2 => Nat.le_trans h2 h1⟩

/-- The selection of `main::run_codeforces`: filter to eligible unsolved
problems, sort descending by contest id, take the first with the target
rating. -/
def run_codeforces_select (level : Nat) (div2 : List Nat)
    (solved : List (Nat × String)) (catalog : List Problem) : Option Problem :=
  (List.insertionSort desc_le (catalog.filter (problem_keep div2 solved))).find?
    (fun p => p.rating == level * 100)

end M

/- Helper lemmas -/

/-- A list is a prefix of itself followed by anything. -/
theorem isPrefixOf_append_self (l t : List Char) : l.isPrefixOf (l ++ t) = true := by
  induction l with
  | nil => simp [List.isPrefixOf]
  | cons c cs ih => simp [List.isPrefixOf, ih]

/-- `contains_seg` finds a needle exhibited by an explicit decomposition of
the haystack. -/
theorem contains_seg_of_split (l₁ needle l₂ : List Char) :
    contains_seg (l₁ ++ needle ++ l₂) needle = true := by
  unfold contains_seg
  rw [List.any_eq_true]
  refine ⟨l₁.length, List.mem_range.mpr ?_, ?_⟩
  · have h := List.length_append (l₁ ++ needle) l₂
    have h2 := List.length_append l₁ needle
    omega
  · rw [List.append_assoc, List.drop_left]
    exact isPrefixOf_append_self needle l₂

/-- The snippet of a body never exceeds 200 characters. -/
theorem snippet_length_le (t : String) : (snippet t).toList.length ≤ 200 := by
  show (t.toList.take 200).length ≤ 200
  rw [List.length_take]
  exact min_le_left _ _

/-- Successful fail-fast decoding decodes every element in place. -/
theorem decode_items_ok {α : Type} (dec : Json → Except String α) :
    ∀ (l : List Json) (r : List α), decode_items dec l = .ok r →
      r = l.filterMap (fun x => (dec x).toOption) := by
  intro l
  induction l with
  | nil =>
    intro r h
    simp only [decode_items] at h
    injection h with h
    simp [h.symm]
  | cons x xs ih =>
    intro r h
    simp only [decode_items] at h
    cases hx : dec x with
    | error e => rw [hx] at h; exact absurd h (by simp)
    | ok v =>
      rw [hx] at h
      cases hxs : decode_items dec xs with
      | error e => rw [hxs] at h; exact absurd h (by simp)
      | ok vs =>
        rw [hxs] at h
        injection h with h
        subst h
        have hopt : (dec x).toOption = some v := by rw [hx]; rfl
        simp [List.filterMap_cons, hopt, ← ih vs hxs]

/-- In a `Pairwise`-sorted list, the first element satisfying a predicate is
related to every member satisfying it. -/
theorem find_sorted_rel {α : Type} (r : α → α → Prop) (hrefl : ∀ a, r a a)
    (pred : α → Bool) :
    ∀ l : List α, List.Pairwise r l → ∀ p, l.find? pred = some p →
      ∀ q ∈ l, pred q = true → r p q := by
  intro l
  induction l with
  | nil => intro _ p hp; simp [List.find?] at hp
  | cons h t ih =>
    intro hpw p hp q hq hpred
    rw [List.pairwise_cons] at hpw
    by_cases hh : pred h = true
    · rw [List.find?_cons_of_pos t hh] at hp
      injection hp with hp
      subst hp
      rcases List.mem_cons.mp hq with rfl | hq
      · exact hrefl q
      · exact hpw.1 q hq
    · rw [List.find?_cons_of_neg t hh] at hp
      rcases List.mem_cons.mp hq with rfl | hq
      · exact absurd hpred hh
      · exact ih hpw.2 p hp q hq hpred

/-- The page maximum never drops below the starting cursor. -/
theorem page_max_ge (page : List Ac.AtcoderSubmission) :
    ∀ from_second : Nat, from_second ≤ Ac.page_max from_second page := by
  induction page with
  | nil => intro f; exact Nat.le_refl f
  | cons s rest ih =>
    intro f
    have hstep : f ≤ (if f < s.epoch_second then s.epoch_second else f) := by
      split <;> omega
    calc f ≤ (if f < s.epoch_second then s.epoch_second else f) := hstep
      _ ≤ Ac.page_max (if f < s.epoch_second then s.epoch_second else f) rest := ih _
      _ = Ac.page_max f (s :: rest) := rfl

/-- Bridge between `List.contains` and membership for lawful `BEq` types. -/
theorem contains_iff_mem {α : Type} [BEq α] [LawfulBEq α] (l : List α) (a : α) :
    l.contains a = true ↔ a ∈ l :=
  List.elem_iff

/-- Unfolding equation of the selection loop at an empty catalog. -/
theorem run_level_fold_nil (level : Nat) (div2 : List Nat)
    (solved : List (Nat × String)) (best : Option Cf.Problem) :
    Cf.run_level_fold level div2 solved [] best = best := rfl

/-- Unfolding equation of the selection loop with no current best. -/
theorem run_level_fold_cons_none (level : Nat) (div2 : List Nat)
    (solved : List (Nat × String)) (x : Cf.Problem) (xs : List Cf.Problem) :
    Cf.run_level_fold level div2 solved (x :: xs) none =
      if Cf.run_level_qualifies level div2 solved x then
        Cf.run_level_fold level div2 solved xs (some x)
      else Cf.run_level_fold level div2 solved xs none := rfl

/-- Unfolding equation of the selection loop with a current best. -/
theorem run_level_fold_cons_some (level : Nat) (div2 : List Nat)
    (solved : List (Nat × String)) (x cur : Cf.Problem) (xs : List Cf.Problem) :
    Cf.run_level_fold level div2 solved (x :: xs) (some cur) =
      if Cf.run_level_qualifies level div2 solved x then
        (if x.contest_id ≤ cur.contest_id then
          Cf.run_level_fold level div2 solved xs (some cur)
        else Cf.run_level_fold level div2 solved xs (some x))
      else Cf.run_level_fold level div2 solved xs (some cur) := rfl

/-- Whatever `run_level`'s loop returns either was the incoming best or is a
qualifying member of the scanned catalog. -/
theorem run_level_fold_qualifies (level : Nat) (div2 : List Nat)
    (solved : List (Nat × String)) :
    ∀ (l : List Cf.Problem) (best : Option Cf.Problem) (p : Cf.Problem),
      Cf.run_level_fold level div2 solved l best = some p →
      best = some p ∨
        (p ∈ l ∧ Cf.run_level_qualifies level div2 solved p = true) := by
  intro l
  induction l with
  | nil => intro best p h; exact Or.inl h
  | cons x xs ih =>
    intro best p h
    have tailcase : ∀ b : Option Cf.Problem,
        Cf.run_level_fold level div2 solved xs b = some p →
        b = some p ∨ (p ∈ x :: xs ∧
          Cf.run_level_qualifies level div2 solved p = true) := by
      intro b hb
      rcases ih b p hb with h1 | h2
      · exact Or.inl h1
      · exact Or.inr ⟨List.mem_cons_of_mem x h2.1, h2.2⟩
    have headcase : ∀ b : Option Cf.Problem,
        Cf.run_level_qualifies level div2 solved x = true →
        Cf.run_level_fold level div2 solved xs (some x) = some p →
        b = some p ∨ (p ∈ x :: xs ∧
          Cf.run_level_qualifies level div2 solved p = true) := by
      intro b hq hb
      rcases ih (some x) p hb with h1 | h2
      · injection h1 with h1
        exact Or.inr ⟨h1 ▸ List.mem_cons_self x xs, h1 ▸ hq⟩
      · exact Or.inr ⟨List.mem_cons_of_mem x h2.1, h2.2⟩
    cases best with
    | none =>
      rw [run_level_fold_cons_none] at h
      by_cases hq : Cf.run_level_qualifies level div2 solved x = true
      · rw [if_pos hq] at h
        exact headcase none hq h
      · rw [if_neg hq] at h
        exact tailcase none h
    | some cur =>
      rw [run_level_fold_cons_some] at h
      by_cases hq : Cf.run_level_qualifies level div2 solved x = true
      · rw [if_pos hq] at h
        by_cases hle : x.contest_id ≤ cur.contest_id
        · rw [if_pos hle] at h
          exact tailcase (some cur) h
        · rw [if_neg hle] at h
          exact headcase (some cur) hq h
      · rw [if_neg hq] at h
        exact tailcase (some cur) h

/-- The result of `run_level`'s loop dominates, by contest id, both every
qualifying catalog entry and the incoming best. -/
theorem run_level_fold_max (level : Nat) (div2 : List Nat)
    (solved : List (Nat × String)) :
    ∀ (l : List Cf.Problem) (best : Option Cf.Problem) (p : Cf.Problem),
      Cf.run_level_fold level div2 solved l best = some p →
      (∀ q ∈ l, Cf.run_level_qualifies level div2 solved q = true →
        q.contest_id ≤ p.contest_id) ∧
      (∀ q, best = some q → q.contest_id ≤ p.contest_id) := by
  intro l
  induction l with
  | nil =>
    intro best p h
    have hbp : best = some p := h
    refine ⟨by intro q hq; exact absurd hq (List.not_mem_nil q), ?_⟩
    intro q hq
    rw [hbp] at hq
    injection hq with hq
    exact hq ▸ Nat.le_refl _
  | cons x xs ih =>
    intro best p h
    cases best with
    | none =>
      rw [run_level_fold_cons_none] at h
      by_cases hq : Cf.run_level_qualifies level div2 solved x = true
      · rw [if_pos hq] at h
        obtain ⟨hA, hB⟩ := ih _ _ h
        refine ⟨?_, by intro q hq'; cases hq'⟩
        intro q hmem hql
        rcases List.mem_cons.mp hmem with rfl | hmem
        · exact hB q rfl
        · exact hA q hmem hql
      · rw [if_neg hq] at h
        obtain ⟨hA, hB⟩ := ih _ _ h
        refine ⟨?_, by intro q hq'; cases hq'⟩
        intro q hmem hql
        rcases List.mem_cons.mp hmem with rfl | hmem
        · exact absurd hql hq
        · exact hA q hmem hql
    | some cur =>
      rw [run_level_fold_cons_some] at h
      by_cases hq : Cf.run_level_qualifies level div2 solved x = true
      · rw [if_pos hq] at h
        by_cases hle : x.contest_id ≤ cur.contest_id
        · rw [if_pos hle] at h
          obtain ⟨hA, hB⟩ := ih _ _ h
          refine ⟨?_, ?_⟩
          · intro q hmem hql
            rcases List.mem_cons.mp hmem with rfl | hmem
            · exact Nat.le_trans hle (hB cur rfl)
            · exact hA q hmem hql
          · intro q hq'
            injection hq' with hq'
            exact hq' ▸ hB cur rfl
        · rw [if_neg hle] at h
          obtain ⟨hA, hB⟩ := ih _ _ h
          refine ⟨?_, ?_⟩
          · intro q hmem hql
            rcases List.mem_cons.mp hmem with rfl | hmem
            · exact hB q rfl
            · exact hA q hmem hql
          · intro q hq'
            injection hq' with hq'
            subst hq'
            exact Nat.le_trans (Nat.le_of_lt (Nat.lt_of_not_le hle)) (hB x rfl)
      · rw [if_neg hq] at h
        obtain ⟨hA, hB⟩ := ih _ _ h
        refine ⟨?_, hB⟩
        intro q hmem hql
        rcases List.mem_cons.mp hmem with rfl | hmem
        · exact absurd hql hq
        · exact hA q hmem hql

/-- Positional characterization of `run_level`'s loop: either the incoming
best survives, or the result sits in the catalog with every earlier
qualifying entry (and the incoming best) strictly below its contest id. -/
theorem run_level_fold_split (level : Nat) (div2 : List Nat)
    (solved : List (Nat × String)) :
    ∀ (l : List Cf.Problem) (best : Option Cf.Problem) (p : Cf.Problem),
      Cf.run_level_fold level div2 solved l best = some p →
      best = some p ∨
        (∃ l₁ l₂, l = l₁ ++ p :: l₂ ∧
          Cf.run_level_qualifies level div2 solved p = true ∧
          (∀ q ∈ l₁, Cf.run_level_qualifies level div2 solved q = true →
            q.contest_id < p.contest_id) ∧
          (∀ q, best = some q → q.contest_id < p.contest_id)) := by
  intro l
  induction l with
  | nil => intro best p h; exact Or.inl h
  | cons x xs ih =>
    intro best p h
    cases best with
    | none =>
      rw [run_level_fold_cons_none] at h
      by_cases hq : Cf.run_level_qualifies level div2 solved x = true
      · rw [if_pos hq] at h
        rcases ih _ _ h with h1 | ⟨l₁, l₂, hsplit, hqp, hlt, hb⟩
        · injection h1 with h1
          subst h1
          exact Or.inr ⟨[], xs, rfl, hq, (by intro q hq'; cases hq'),
            (by intro q hq'; cases hq')⟩
        · refine Or.inr ⟨x :: l₁, l₂, by rw [hsplit]; rfl, hqp, ?_,
            (by intro q hq'; cases hq')⟩
          intro q hmem hql
          rcases List.mem_cons.mp hmem with rfl | hmem
          · exact hb q rfl
          · exact hlt q hmem hql
      · rw [if_neg hq] at h
        rcases ih _ _ h with h1 | ⟨l₁, l₂, hsplit, hqp, hlt, hb⟩
        · exact Or.inl h1
        · refine Or.inr ⟨x :: l₁, l₂, by rw [hsplit]; rfl, hqp, ?_,
            (by intro q hq'; cases hq')⟩
          intro q hmem hql
          rcases List.mem_cons.mp hmem with rfl | hmem
          · exact absurd hql hq
          · exact hlt q hmem hql
    | some cur =>
      rw [run_level_fold_cons_some] at h
      by_cases hq : Cf.run_level_qualifies level div2 solved x = true
      · rw [if_pos hq] at h
        by_cases hle : x.contest_id ≤ cur.contest_id
        · rw [if_pos hle] at h
          rcases ih _ _ h with h1 | ⟨l₁, l₂, hsplit, hqp, hlt, hb⟩
          · exact Or.inl h1
          · refine Or.inr ⟨x :: l₁, l₂, by rw [hsplit]; rfl, hqp, ?_, ?_⟩
            · intro q hmem hql
              rcases List.mem_cons.mp hmem with rfl | hmem
              · exact Nat.lt_of_le_of_lt hle (hb cur rfl)
              · exact hlt q hmem hql
            · intro q hq'
              injection hq' with hq'
              exact hq' ▸ hb cur rfl
        · rw [if_neg hle] at h
          rcases ih _ _ h with h1 | ⟨l₁, l₂, hsplit, hqp, hlt, hb⟩
          · injection h1 with h1
            subst h1
            refine Or.inr ⟨[], xs, rfl, hq, (by intro q hq'; cases hq'), ?_⟩
            intro q hq'
            injection hq' with hq'
            exact hq' ▸ Nat.lt_of_not_le hle
          · refine Or.inr ⟨x :: l₁, l₂, by rw [hsplit]; rfl, hqp, ?_, ?_⟩
            · intro q hmem hql
              rcases List.mem_cons.mp hmem with rfl | hmem
              · exact hb q rfl
              · exact hlt q hmem hql
            · intro q hq'
              injection hq' with hq'
              subst hq'
              exact Nat.lt_trans (Nat.lt_of_not_le hle) (hb x rfl)
      · rw [if_neg hq] at h
        rcases ih _ _ h with h1 | ⟨l₁, l₂, hsplit, hqp, hlt, hb⟩
        · exact Or.inl h1
        · refine Or.inr ⟨x :: l₁, l₂, by rw [hsplit]; rfl, hqp, ?_, hb⟩
          intro q hmem hql
          rcases List.mem_cons.mp hmem with rfl | hmem
          · exact absurd hql hq
          · exact hlt q hmem hql

/-- Unfolding equation of the pagination loop at a non-empty page list. -/
theorem fetch_subs_cons (page : List Ac.AtcoderSubmission)
    (rest : List (List Ac.AtcoderSubmission)) (f : Nat) (a : List String) :
    Ac.fetch_user_submissions (page :: rest) f a =
      if page.isEmpty then some (a, 1)
      else if Ac.page_max f page = f then some (a ++ Ac.page_accepted page, 1)
      else
        match Ac.fetch_user_submissions rest (Ac.page_max f page + 1)
            (a ++ Ac.page_accepted page) with
        | some (acc, k) => some (acc, k + 1)
        | none => none := rfl

/-- Unfolding equation of the advancing-page count at a non-empty list. -/
theorem advancing_count_cons (page : List Ac.AtcoderSubmission)
    (rest : List (List Ac.AtcoderSubmission)) (f : Nat) :
    Ac.advancing_count (page :: rest) f =
      if page.isEmpty then 0
      else if Ac.page_max f page = f then 0
      else Ac.advancing_count rest (Ac.page_max f page + 1) + 1 := rfl

/-- C6: whenever the supplied page sequence stops advancing before it runs
out — it reaches an empty page or a page whose maximum timestamp does not
exceed the cursor — the cursor-pagination loop halts, in exactly the number
of non-empty cursor-advancing pages plus one iterations; and on every
continuing iteration the new cursor `page maximum + 1` strictly exceeds the
old cursor. -/
theorem pagination_terminates :
    (∀ (pages : List (List Ac.AtcoderSubmission)) (from_second : Nat)
        (accepted : List String),
      Ac.advancing_count pages from_second < pages.length →
      ∃ acc, Ac.fetch_user_submissions pages from_second accepted =
        some (acc, Ac.advancing_count pages from_second + 1)) ∧
    (∀ (from_second : Nat) (page : List Ac.AtcoderSubmission),
      from_second < Ac.page_max from_second page + 1) := by
  constructor
  · intro pages
    induction pages with
    | nil =>
      intro f a h
      simp [Ac.advancing_count] at h
    | cons page rest ih =>
      intro f a h
      by_cases he : page.isEmpty
      · rw [fetch_subs_cons, if_pos he, advancing_count_cons, if_pos he]
        exact ⟨a, rfl⟩
      · by_cases hm : Ac.page_max f page = f
        · rw [fetch_subs_cons, if_neg he, if_pos hm,
            advancing_count_cons, if_neg he, if_pos hm]
          exact ⟨a ++ Ac.page_accepted page, rfl⟩
        · rw [advancing_count_cons, if_neg he, if_neg hm] at h
          rw [List.length_cons] at h
          have h2 : Ac.advancing_count rest (Ac.page_max f page + 1) <
              rest.length := by omega
          obtain ⟨acc, hacc⟩ := ih (Ac.page_max f page + 1)
            (a ++ Ac.page_accepted page) h2
          refine ⟨acc, ?_⟩
          rw [fetch_subs_cons, if_neg he, if_neg hm, hacc,
            advancing_count_cons, if_neg he, if_neg hm]
  · intro f page
    exact Nat.lt_succ_of_le (page_max_ge page f)

/-- C6 witness: a concrete advancing page followed by an empty page. -/
theorem pagination_terminates_witness :
    Ac.advancing_count [[⟨"p1", "AC", 5⟩], []] 0 <
      ([[⟨"p1", "AC", 5⟩], []] : List (List Ac.AtcoderSubmission)).length ∧
    ∃ acc, Ac.fetch_user_submissions [[⟨"p1", "AC", 5⟩], []] 0 [] =
      some (acc, Ac.advancing_count [[⟨"p1", "AC", 5⟩], []] 0 + 1) :=
  ⟨by decide, pagination_terminates.1 [[⟨"p1", "AC", 5⟩], []] 0 [] (by decide)⟩

/-- C7: on both platforms a contest is eligible exactly when the
category/division test passes and the start timestamp is present and strictly
before the cutoff; a contest with a missing start timestamp is excluded. -/
theorem eligibility_characterization (cutoff : Nat) (c : M.Contest)
    (a : Ac.AtcoderContest) :
    (M.contest_keep cutoff c = true ↔
      (contains_seg c.name.toList "Div. 2".toList = true ∧
       contains_seg c.name.toList "Div. 1".toList = false ∧
       ∃ ts, c.start_time_seconds = some ts ∧ ts < cutoff)) ∧
    (Ac.abc_contest_keep cutoff a = true ↔
      ("abc".toList.isPrefixOf (a.id.toList.map Char.toLower) = true ∧
       ∃ ts, a.start_epoch_second = some ts ∧ ts < cutoff)) ∧
    (c.start_time_seconds = none → M.contest_keep cutoff c = false) ∧
    (a.start_epoch_second = none → Ac.abc_contest_keep cutoff a = false) := by
  refine ⟨?_, ?_, ?_, ?_⟩
  · unfold M.contest_keep
    cases hc : c.start_time_seconds with
    | none => simp
    | some ts => simp [Bool.and_assoc]
  · unfold Ac.abc_contest_keep
    cases ha : a.start_epoch_second with
    | none => simp
    | some ts => simp
  · intro hc
    unfold M.contest_keep
    rw [hc]
    simp
  · intro ha
    unfold Ac.abc_contest_keep
    rw [ha]
    simp

/-- C7 witness: a contest with the right name but no start timestamp is
excluded on both platforms. -/
theorem eligibility_characterization_witness :
    M.contest_keep 1672531200 ⟨1, "Codeforces Round (Div. 2)", none⟩ = false ∧
    Ac.abc_contest_keep 1672531200 ⟨"abc100", none⟩ = false :=
  ⟨(eligibility_characterization 1672531200
      ⟨1, "Codeforces Round (Div. 2)", none⟩ ⟨"abc100", none⟩).2.2.1 rfl,
   (eligibility_characterization 1672531200
      ⟨1, "Codeforces Round (Div. 2)", none⟩ ⟨"abc100", none⟩).2.2.2 rfl⟩

/-- C10: an identity enters the Codeforces solved set exactly when some
submission for it has verdict `OK` and its embedded problem record carries a
numeric rating; an accepted submission whose problem record lacks a rating
contributes nothing to the solved set. -/
theorem solved_set_requires_rating (subs : List Cf.Submission) (cid : Nat)
    (idx : String) (s : Cf.Submission) :
    ((cid, idx) ∈ Cf.solved_ids subs ↔
      ∃ t ∈ subs, t.verdict = some "OK" ∧ (∃ r, t.problem.rating = some r) ∧
        t.problem.contest_id = cid ∧ t.problem.index = idx) ∧
    (s.problem.rating = none →
      Cf.fetch_user_submissions (s :: subs) = Cf.fetch_user_submissions subs) := by
  constructor
  · unfold Cf.solved_ids Cf.fetch_user_submissions
    rw [List.mem_map]
    constructor
    · rintro ⟨p, hp, heq⟩
      rw [List.mem_filterMap] at hp
      obtain ⟨t, ht, hgt⟩ := hp
      by_cases hv : t.verdict = some "OK"
      · rw [if_pos hv] at hgt
        cases hr : t.problem.rating with
        | none => rw [hr] at hgt; cases hgt
        | some r =>
          rw [hr] at hgt
          rw [Option.map_some'] at hgt
          injection hgt with hgt
          subst hgt
          exact ⟨t, ht, hv, ⟨r, hr⟩, congrArg Prod.fst heq, congrArg Prod.snd heq⟩
      · rw [if_neg hv] at hgt; cases hgt
    · rintro ⟨t, ht, hv, ⟨r, hr⟩, hcid, hidx⟩
      refine ⟨Cf.Problem.mk t.problem.contest_id t.problem.index r
          t.problem.name, ?_, ?_⟩
      · rw [List.mem_filterMap]
        exact ⟨t, ht, by rw [if_pos hv, hr]; rfl⟩
      · simp [hcid, hidx]
  · intro hr
    unfold Cf.fetch_user_submissions
    have hnone : (if s.verdict = some "OK" then
        s.problem.rating.map (fun r =>
          Cf.Problem.mk s.problem.contest_id s.problem.index r s.problem.name)
        else none) = none := by
      by_cases hv : s.verdict = some "OK"
      · rw [if_pos hv, hr]; rfl
      · rw [if_neg hv]
    simp only [List.filterMap_cons, hnone]

/-- C10 witness: an accepted submission without a rating leaves the solved
set unchanged, so the identity stays out of the solved set. -/
theorem solved_set_requires_rating_witness :
    Cf.fetch_user_submissions
      [⟨⟨42, "A", "acc-no-rating", none⟩, some "OK"⟩] =
      Cf.fetch_user_submissions [] ∧
    ¬ ((42, "A") ∈ Cf.solved_ids [⟨⟨42, "A", "acc-no-rating", none⟩, some "OK"⟩]) :=
  ⟨(solved_set_requires_rating [] 42 "A"
      ⟨⟨42, "A", "acc-no-rating", none⟩, some "OK"⟩).2 rfl,
   by
    intro h
    obtain ⟨t, ht, _, ⟨r, hrt⟩, _, _⟩ :=
      (solved_set_requires_rating
        [⟨⟨42, "A", "acc-no-rating", none⟩, some "OK"⟩] 42 "A"
        ⟨⟨42, "A", "acc-no-rating", none⟩, some "OK"⟩).1.mp h
    rcases List.mem_singleton.mp ht with rfl
    cases hrt⟩

/-- The three `run_level` filter guards, read as propositions. -/
theorem run_level_qualifies_spec (level : Nat) (div2 : List Nat)
    (solved : List (Nat × String)) (p : Cf.Problem) :
    Cf.run_level_qualifies level div2 solved p = true ↔
      p.rating = level * 100 ∧ p.contest_id ∈ div2 ∧
        (p.contest_id, p.index) ∉ solved := by
  unfold Cf.run_level_qualifies
  simp [Bool.and_eq_true, contains_iff_mem, and_assoc]

/-- The `atcoder::run` candidate filter, read as propositions. -/
theorem candidate_keep_spec (letter : String) (abc : List String)
    (p : Ac.AtcoderProblem) :
    Ac.candidate_keep letter abc p = true ↔
      p.contest_id ∈ abc ∧ Ac.problem_index p.id = some letter := by
  unfold Ac.candidate_keep
  cases hpi : Ac.problem_index p.id with
  | none => simp [contains_iff_mem]
  | some idx => simp [contains_iff_mem]

/-- The `main::run_codeforces` filter, read as propositions. -/
theorem problem_keep_spec (div2 : List Nat) (solved : List (Nat × String))
    (p : M.Problem) :
    M.problem_keep div2 solved p = true ↔
      p.contest_id ∈ div2 ∧ (p.contest_id, p.index) ∉ solved := by
  unfold M.problem_keep
  simp [Bool.and_eq_true, contains_iff_mem]

/-- C1: none of the three selectors ever returns a solved problem — the
returned problem always lies in an eligible contest, is absent from the
solved set, and satisfies the selection axis. -/
theorem selector_respects_filters
    (level : Nat) (div2 : List Nat) (solved : List (Nat × String))
    (catalog : List Cf.Problem) (letter : String) (abc : List String)
    (asolved : List String) (problems : List Ac.AtcoderProblem)
    (mdiv2 : List Nat) (msolved : List (Nat × String))
    (mcatalog : List M.Problem) :
    (∀ p, Cf.run_level_best level div2 solved catalog = some p →
      p.rating = level * 100 ∧ p.contest_id ∈ div2 ∧
        (p.contest_id, p.index) ∉ solved) ∧
    (∀ p, Ac.select letter abc asolved problems = some p →
      p.contest_id ∈ abc ∧ Ac.problem_index p.id = some letter ∧
        p.id ∉ asolved) ∧
    (∀ p, M.run_codeforces_select level mdiv2 msolved mcatalog = some p →
      p.rating = level * 100 ∧ p.contest_id ∈ mdiv2 ∧
        (p.contest_id, p.index) ∉ msolved) := by
  refine ⟨?_, ?_, ?_⟩
  · intro p hp
    rcases run_level_fold_qualifies level div2 solved catalog none p hp with
      h1 | ⟨_, h2⟩
    · cases h1
    · exact (run_level_qualifies_spec level div2 solved p).mp h2
  · intro p hp
    have hpred := List.find?_some hp
    have hmem := List.mem_of_find?_eq_some hp
    rw [(List.perm_insertionSort Ac.candidate_le _).mem_iff] at hmem
    obtain ⟨hmem2, hkeep⟩ := List.mem_filter.mp hmem
    obtain ⟨helig, hidx⟩ := (candidate_keep_spec letter abc p).mp hkeep
    refine ⟨helig, hidx, ?_⟩
    intro hsolved
    rw [(contains_iff_mem asolved p.id).mpr hsolved] at hpred
    cases hpred
  · intro p hp
    have hpred := List.find?_some hp
    have hmem := List.mem_of_find?_eq_some hp
    rw [(List.perm_insertionSort M.desc_le _).mem_iff] at hmem
    obtain ⟨hmem2, hkeep⟩ := List.mem_filter.mp hmem
    obtain ⟨helig, hsolved⟩ := (problem_keep_spec mdiv2 msolved p).mp hkeep
    exact ⟨beq_iff_eq.mp hpred, helig, hsolved⟩

/-- C1 witness: a one-problem catalog on each platform. -/
theorem selector_respects_filters_witness :
    Cf.run_level_best 8 [100] [] [⟨100, "A", 800, "x"⟩] =
      some ⟨100, "A", 800, "x"⟩ ∧
    Ac.select "a" ["abc001"] [] [⟨"abc001_a", "abc001"⟩] =
      some ⟨"abc001_a", "abc001"⟩ ∧
    ((⟨100, "A", 800, "x"⟩ : Cf.Problem).rating = 8 * 100 ∧
      (⟨100, "A", 800, "x"⟩ : Cf.Problem).contest_id ∈ [100] ∧
      ((⟨100, "A", 800, "x"⟩ : Cf.Problem).contest_id,
        (⟨100, "A", 800, "x"⟩ : Cf.Problem).index) ∉ ([] : List (Nat × String))) ∧
    ((⟨"abc001_a", "abc001"⟩ : Ac.AtcoderProblem).contest_id ∈ ["abc001"] ∧
      Ac.problem_index "abc001_a" = some "a" ∧
      (⟨"abc001_a", "abc001"⟩ : Ac.AtcoderProblem).id ∉ ([] : List String)) :=
  ⟨by decide, by decide,
    (selector_respects_filters 8 [100] [] [⟨100, "A", 800, "x"⟩]
      "a" ["abc001"] [] [⟨"abc001_a", "abc001"⟩] [] [] []).1
      ⟨100, "A", 800, "x"⟩ (by decide),
    (selector_respects_filters 8 [100] [] [⟨100, "A", 800, "x"⟩]
      "a" ["abc001"] [] [⟨"abc001_a", "abc001"⟩] [] [] []).2.1
      ⟨"abc001_a", "abc001"⟩ (by decide)⟩

/-- C8: whenever a Codeforces selector returns a problem for an in-range
rating level N, that problem's rating is exactly N * 100. -/
theorem rating_level_exact (level : Nat) (div2 : List Nat)
    (solved : List (Nat × String)) (catalog : List Cf.Problem)
    (mdiv2 : List Nat) (msolved : List (Nat × String))
    (mcatalog : List M.Problem) (p : Cf.Problem) (q : M.Problem)
    (h8 : 8 ≤ level) (h32 : level ≤ 32) :
    (Cf.run_level level catalog div2 solved = .ok (Cf.Outcome.found p) →
      p.rating = level * 100) ∧
    (M.run_codeforces_select level mdiv2 msolved mcatalog = some q →
      q.rating = level * 100) := by
  constructor
  · intro hfound
    unfold Cf.run_level at hfound
    rw [if_neg (by omega : ¬ (level < 8 ∨ 32 < level))] at hfound
    cases hbest : Cf.run_level_best level div2 solved catalog with
    | none => rw [hbest] at hfound; simp at hfound
    | some p2 =>
      rw [hbest] at hfound
      injection hfound with h
      injection h with h2
      rw [← h2]
      rcases run_level_fold_qualifies level div2 solved catalog none p2 hbest with
        h1 | ⟨_, h3⟩
      · cases h1
      · exact ((run_level_qualifies_spec level div2 solved p2).mp h3).1
  · intro hq
    unfold M.run_codeforces_select at hq
    have hpred := List.find?_some hq
    exact beq_iff_eq.mp hpred

/-- C8 witness: level 8 selects the rating-800 problem. -/
theorem rating_level_exact_witness :
    (8 : Nat) ≤ 8 ∧ (8 : Nat) ≤ 32 ∧
    (⟨100, "A", 800, "x"⟩ : Cf.Problem).rating = 8 * 100 :=
  ⟨by decide, by decide,
    (rating_level_exact 8 [100] [] [⟨100, "A", 800, "x"⟩] [] [] []
      ⟨100, "A", 800, "x"⟩ ⟨0, "", 0⟩ (by decide) (by decide)).1 rfl⟩

/-- A list is a sublist of the result of ordered-inserting an element into
it. -/
theorem sublist_orderedInsert_self {α : Type} (r : α → α → Prop)
    [DecidableRel r] (a : α) :
    ∀ s : List α, List.Sublist s (List.orderedInsert r a s) := by
  intro s
  induction s with
  | nil => exact List.nil_sublist _
  | cons b t ih =>
    simp only [List.orderedInsert]
    split
    · exact List.Sublist.cons a (List.Sublist.refl _)
    · exact List.Sublist.cons₂ b ih

/-- A sublist of `t ++ d` that avoids every element of `t` is a sublist of
`d`. -/
theorem sublist_right_of_disjoint {α : Type} :
    ∀ (t c d : List α), List.Sublist c (t ++ d) → (∀ y ∈ c, y ∉ t) →
      List.Sublist c d := by
  intro t
  induction t with
  | nil => intro c d h _; exact h
  | cons z t2 ih =>
    intro c d h hdisj
    rw [List.cons_append] at h
    cases h with
    | cons _ h2 =>
      exact ih c d h2 (fun y hy hyt => hdisj y hy (List.mem_cons_of_mem z hyt))
    | cons₂ _ h2 =>
      exact absurd (List.mem_cons_self z t2) (hdisj z (List.mem_cons_self z _))

/-- Ordered insertion places the new element in front of every element it
relates to: a sublist whose members are all related-from `a` extends to a
sublist with `a` in front. -/
theorem cons_sublist_orderedInsert {α : Type} (r : α → α → Prop)
    [DecidableRel r] (a : α) (s c : List α) (hsub : List.Sublist c s)
    (hr : ∀ y ∈ c, r a y) :
    List.Sublist (a :: c) (List.orderedInsert r a s) := by
  rw [List.orderedInsert_eq_take_drop]
  have hdisj : ∀ y ∈ c, y ∉ s.takeWhile fun b => ¬ r a b := by
    intro y hy hyt
    have h1 := List.mem_takeWhile_imp hyt
    exact (of_decide_eq_true h1) (hr y hy)
  have hcd : List.Sublist c (s.dropWhile fun b => ¬ r a b) := by
    refine sublist_right_of_disjoint _ c _ ?_ hdisj
    rw [List.takeWhile_append_dropWhile]
    exact hsub
  exact (List.Sublist.cons₂ a hcd).trans (List.sublist_append_right _ _)

/-- Insertion sort is stable: a pairwise-related sublist of the input stays
a sublist of the sorted output. -/
theorem pairwise_sublist_insertionSort {α : Type} (r : α → α → Prop)
    [DecidableRel r] :
    ∀ (l c : List α), List.Sublist c l → c.Pairwise r →
      List.Sublist c (List.insertionSort r l) := by
  intro l
  induction l with
  | nil => intro c h _; exact h
  | cons a rest ih =>
    intro c h hpw
    cases h with
    | cons _ h2 =>
      exact (ih c h2 hpw).trans (sublist_orderedInsert_self r a _)
    | cons₂ _ h2 =>
      rw [List.pairwise_cons] at hpw
      exact cons_sublist_orderedInsert r a _ _ (ih _ h2 hpw.2) hpw.1

/-- Every member splits its list at the first occurrence. -/
theorem mem_first_split {α : Type} [DecidableEq α] (a : α) :
    ∀ l : List α, a ∈ l → ∃ s t, l = s ++ a :: t ∧ a ∉ s := by
  intro l
  induction l with
  | nil => intro h; cases h
  | cons x rest ih =>
    intro h
    by_cases hx : x = a
    · exact ⟨[], rest, by rw [hx, List.nil_append], List.not_mem_nil a⟩
    · have hmem : a ∈ rest := by
        rcases List.mem_cons.mp h with h1 | h1
        · exact absurd h1.symm hx
        · exact h1
      obtain ⟨s, t, heq, hns⟩ := ih hmem
      refine ⟨x :: s, t, by rw [heq]; rfl, ?_⟩
      intro hmm
      rcases List.mem_cons.mp hmm with h1 | h1
      · exact hx h1.symm
      · exact hns h1

/-- A cons-shaped sublist splits its superlist around the head. -/
theorem cons_sublist_split {α : Type} (a : α) :
    ∀ (l₂ l₁ : List α), List.Sublist (a :: l₁) l₂ →
      ∃ u₁ u₂, l₂ = u₁ ++ a :: u₂ ∧ List.Sublist l₁ u₂ := by
  intro l₂
  induction l₂ with
  | nil => intro l₁ h; cases h
  | cons b t ih =>
    intro l₁ h
    cases h with
    | cons _ h2 =>
      obtain ⟨u₁, u₂, heq, hsub⟩ := ih l₁ h2
      exact ⟨b :: u₁, u₂, by rw [heq]; rfl, hsub⟩
    | cons₂ _ h2 => exact ⟨[], t, rfl, h2⟩

/-- Constant lists are pairwise related when the relation is reflexive at
the repeated element. -/
theorem pairwise_replicate_self {α : Type} (r : α → α → Prop) (a : α)
    (h : r a a) : ∀ n, (List.replicate n a).Pairwise r := by
  intro n
  induction n with
  | zero => exact List.Pairwise.nil
  | succ m ih =>
    rw [List.replicate_succ]
    refine List.Pairwise.cons ?_ ih
    intro y hy
    rw [List.eq_of_mem_replicate hy]
    exact h

/-- Order characterization of `main::run_codeforces`: the returned problem
has the maximal contest id among qualifying entries, and the stable
descending sort resolves contest-id ties by catalog position — every
qualifying entry strictly before the returned problem's first occurrence
has a strictly smaller contest id. -/
theorem run_codeforces_select_order (level : Nat) (div2 : List Nat)
    (solved : List (Nat × String)) (catalog : List M.Problem) (p : M.Problem)
    (hsel : M.run_codeforces_select level div2 solved catalog = some p) :
    (∀ q ∈ catalog, M.problem_keep div2 solved q = true →
      q.rating = level * 100 → q.contest_id ≤ p.contest_id) ∧
    ∃ l₁ l₂, catalog = l₁ ++ p :: l₂ ∧
      ∀ q ∈ l₁, M.problem_keep div2 solved q = true →
        q.rating = level * 100 → q.contest_id < p.contest_id := by
  unfold M.run_codeforces_select at hsel
  have hmems : p ∈ List.insertionSort M.desc_le
      (catalog.filter (M.problem_keep div2 solved)) :=
    List.mem_of_find?_eq_some hsel
  have hmemf : p ∈ catalog.filter (M.problem_keep div2 solved) :=
    (List.perm_insertionSort M.desc_le _).mem_iff.mp hmems
  have hmemc : p ∈ catalog := (List.mem_filter.mp hmemf).1
  have hmax : ∀ q ∈ catalog, M.problem_keep div2 solved q = true →
      q.rating = level * 100 → q.contest_id ≤ p.contest_id := by
    intro q hq hkq hrq
    have hqs : q ∈ List.insertionSort M.desc_le
        (catalog.filter (M.problem_keep div2 solved)) := by
      rw [(List.perm_insertionSort M.desc_le _).mem_iff]
      exact List.mem_filter.mpr ⟨hq, hkq⟩
    have hpred : (fun x : M.Problem => x.rating == level * 100) q = true := by
      show (q.rating == level * 100) = true
      exact beq_iff_eq.mpr hrq
    exact find_sorted_rel M.desc_le (fun a => Nat.le_refl _) _ _
      (List.sorted_insertionSort M.desc_le _) p hsel q hqs hpred
  refine ⟨hmax, ?_⟩
  obtain ⟨l₁, l₂, hcat, hnp⟩ := mem_first_split p catalog hmemc
  refine ⟨l₁, l₂, hcat, ?_⟩
  intro q hql hkq hrq
  have hqc : q ∈ catalog := by
    rw [hcat]
    exact List.mem_append_left _ hql
  by_contra hnlt
  have heqc : q.contest_id = p.contest_id :=
    Nat.le_antisymm (hmax q hqc hkq hrq) (Nat.le_of_not_lt hnlt)
  have hqnep : q ≠ p := fun h => hnp (h ▸ hql)
  have hcatf : catalog.filter (M.problem_keep div2 solved) =
      l₁.filter (M.problem_keep div2 solved) ++
        (p :: l₂).filter (M.problem_keep div2 solved) := by
    rw [hcat, List.filter_append]
  have hqf1 : q ∈ l₁.filter (M.problem_keep div2 solved) :=
    List.mem_filter.mpr ⟨hql, hkq⟩
  obtain ⟨A, B1, hAB⟩ := List.append_of_mem hqf1
  have hfilt2 : catalog.filter (M.problem_keep div2 solved) =
      A ++ q :: (B1 ++ (p :: l₂).filter (M.problem_keep div2 solved)) := by
    rw [hcatf, hAB, List.append_assoc]
    rfl
  have hpA : p ∉ A := by
    intro hpa
    apply hnp
    have hmf : p ∈ l₁.filter (M.problem_keep div2 solved) := by
      rw [hAB]
      exact List.mem_append_left _ hpa
    exact (List.mem_filter.mp hmf).1
  have hqbeq : (q == p) = false := by
    simp [hqnep]
  set k := (catalog.filter (M.problem_keep div2 solved)).count p with hk
  have hcountB : k =
      (B1 ++ (p :: l₂).filter (M.problem_keep div2 solved)).count p := by
    rw [hk, hfilt2, List.count_append, List.count_cons, hqbeq,
      List.count_eq_zero.mpr hpA]
    simp
  have hrepl : List.Sublist (List.replicate k p)
      (B1 ++ (p :: l₂).filter (M.problem_keep div2 solved)) :=
    List.le_count_iff_replicate_sublist.mp (Nat.le_of_eq hcountB)
  have hcsub : List.Sublist (q :: List.replicate k p)
      (catalog.filter (M.problem_keep div2 solved)) := by
    rw [hfilt2]
    exact (List.Sublist.cons₂ q hrepl).trans (List.sublist_append_right A _)
  have hpw : (q :: List.replicate k p).Pairwise M.desc_le := by
    refine List.Pairwise.cons ?_
      (pairwise_replicate_self M.desc_le p (Nat.le_refl _) _)
    intro y hy
    rw [List.eq_of_mem_replicate hy]
    show p.contest_id ≤ q.contest_id
    rw [heqc]
  have hstab := pairwise_sublist_insertionSort M.desc_le _ _ hcsub hpw
  obtain ⟨u₁, u₂, hse, hru⟩ := cons_sublist_split q _ _ hstab
  have hcnt1 : (List.insertionSort M.desc_le
      (catalog.filter (M.problem_keep div2 solved))).count p = k :=
    (List.perm_insertionSort M.desc_le _).count_eq p
  have hcnt2 : k ≤ u₂.count p := by
    have hh := hru.count_le p
    simpa using hh
  have hpu1 : p ∉ u₁ := by
    rw [hse, List.count_append, List.count_cons] at hcnt1
    simp only [hqbeq] at hcnt1
    refine List.count_eq_zero.mp ?_
    omega
  rw [hse, List.find?_append] at hsel
  cases hfu : u₁.find? (fun x : M.Problem => x.rating == level * 100) with
  | some x =>
    rw [hfu] at hsel
    have hxp : x = p := by
      simp [Option.or] at hsel
      exact hsel
    exact hpu1 (hxp ▸ List.mem_of_find?_eq_some hfu)
  | none =>
    rw [hfu] at hsel
    simp only [Option.none_or] at hsel
    have hfq : List.find? (fun x : M.Problem => x.rating == level * 100)
        (q :: u₂) = some q := by
      refine List.find?_cons_of_pos u₂ ?_
      show (q.rating == level * 100) = true
      exact beq_iff_eq.mpr hrq
    rw [hfq] at hsel
    injection hsel with hinj
    exact hqnep hinj

/-- C2 counterexample: with two qualifying rating-800 problems in the same
contest 100, indices "B" before "A" in catalog order, both Codeforces
selectors return the "B" problem, although the claimed ascending
lexicographic tie-break on the index key would require "A"
(the returned index "B" is not ≤ the qualifying index "A"). -/
theorem tie_break_counterexample :
    Cf.run_level_best 8 [100] [] [⟨100, "B", 800, "nB"⟩, ⟨100, "A", 800, "nA"⟩] =
      some ⟨100, "B", 800, "nB"⟩ ∧
    Cf.run_level_qualifies 8 [100] [] ⟨100, "A", 800, "nA"⟩ = true ∧
    (⟨100, "A", 800, "nA"⟩ : Cf.Problem).contest_id =
      (⟨100, "B", 800, "nB"⟩ : Cf.Problem).contest_id ∧
    ¬ ("B".toList ≤ "A".toList) ∧
    M.run_codeforces_select 8 [100] [] [⟨100, "B", 800⟩, ⟨100, "A", 800⟩] =
      some ⟨100, "B", 800⟩ :=
  ⟨by decide, by decide, by decide, by decide, by decide⟩

/-- C2 amended: the AtCoder selector returns an unsolved candidate whose
numeric contest-ordering key is maximal, with same-contest ties broken by
ascending id; both Codeforces selectors (codeforces::run_level and
main::run_codeforces) return a qualifying problem of maximal contest id,
but ties on the contest id are broken by catalog position — the earliest
qualifying entry with the maximal contest id is kept, not the
lexicographically least index. -/
theorem selection_order_amended
    (level : Nat) (div2 : List Nat) (solved : List (Nat × String))
    (catalog : List Cf.Problem) (letter : String) (abc : List String)
    (asolved : List String) (problems : List Ac.AtcoderProblem)
    (mcatalog : List M.Problem) :
    (∀ p, Ac.select letter abc asolved problems = some p →
      ∀ q ∈ problems, Ac.candidate_keep letter abc q = true →
        q.id ∉ asolved →
        Ac.contest_number q.contest_id ≤ Ac.contest_number p.contest_id ∧
        (q.contest_id = p.contest_id → p.id.toList ≤ q.id.toList)) ∧
    (∀ p, Cf.run_level_best level div2 solved catalog = some p →
      (∀ q ∈ catalog, Cf.run_level_qualifies level div2 solved q = true →
        q.contest_id ≤ p.contest_id) ∧
      ∃ l₁ l₂, catalog = l₁ ++ p :: l₂ ∧
        (∀ q ∈ l₁, Cf.run_level_qualifies level div2 solved q = true →
          q.contest_id < p.contest_id)) ∧
    (∀ p, M.run_codeforces_select level div2 solved mcatalog = some p →
      (∀ q ∈ mcatalog, M.problem_keep div2 solved q = true →
        q.rating = level * 100 → q.contest_id ≤ p.contest_id) ∧
      ∃ l₁ l₂, mcatalog = l₁ ++ p :: l₂ ∧
        ∀ q ∈ l₁, M.problem_keep div2 solved q = true →
          q.rating = level * 100 → q.contest_id < p.contest_id) := by
  refine ⟨?_, ?_, ?_⟩
  · intro p hp q hq hkeep hunsolved
    unfold Ac.select at hp
    have hsorted : List.Pairwise Ac.candidate_le
        (List.insertionSort Ac.candidate_le
          (Ac.candidates letter abc problems)) :=
      List.sorted_insertionSort Ac.candidate_le _
    have hqmem : q ∈ List.insertionSort Ac.candidate_le
        (Ac.candidates letter abc problems) := by
      rw [(List.perm_insertionSort Ac.candidate_le _).mem_iff]
      exact List.mem_filter.mpr ⟨hq, hkeep⟩
    have hc : asolved.contains q.id = false := by
      cases hcc : asolved.contains q.id
      · rfl
      · exact absurd ((contains_iff_mem _ _).mp hcc) hunsolved
    have hqpred : (fun r : Ac.AtcoderProblem => !(asolved.contains r.id)) q
        = true := by
      show (!(asolved.contains q.id)) = true
      rw [hc]
      rfl
    have hle := find_sorted_rel Ac.candidate_le
      (fun a => Or.inr ⟨rfl, le_refl _⟩)
      (fun r : Ac.AtcoderProblem => !(asolved.contains r.id))
      _ hsorted p hp q hqmem hqpred
    rcases hle with hlt | ⟨heq, hid⟩
    · refine ⟨Nat.le_of_lt hlt, ?_⟩
      intro hcid
      rw [congrArg Ac.contest_number hcid] at hlt
      exact absurd hlt (lt_irrefl _)
    · exact ⟨Nat.le_of_eq heq, fun _ => hid⟩
  · intro p hp
    refine ⟨(run_level_fold_max level div2 solved catalog none p hp).1, ?_⟩
    rcases run_level_fold_split level div2 solved catalog none p hp with
      h1 | ⟨l₁, l₂, hsp, _, hlt, _⟩
    · cases h1
    · exact ⟨l₁, l₂, hsp, hlt⟩
  · intro p hp
    exact run_codeforces_select_order level div2 solved mcatalog p hp

/-- C2 amended witness: two AtCoder candidates, abc002 dominating abc001;
and the main.rs Codeforces selector on a same-contest pair, with the
dominance fact coming out of the theorem. -/
theorem selection_order_amended_witness :
    Ac.select "a" ["abc001", "abc002"] []
      [⟨"abc001_a", "abc001"⟩, ⟨"abc002_a", "abc002"⟩] =
      some ⟨"abc002_a", "abc002"⟩ ∧
    Ac.contest_number "abc001" ≤ Ac.contest_number "abc002" ∧
    M.run_codeforces_select 8 [100] [] [⟨100, "B", 800⟩, ⟨100, "A", 800⟩] =
      some ⟨100, "B", 800⟩ ∧
    (⟨100, "A", 800⟩ : M.Problem).contest_id ≤
      (⟨100, "B", 800⟩ : M.Problem).contest_id :=
  ⟨by decide,
    ((selection_order_amended 8 [] [] [] "a" ["abc001", "abc002"] []
      [⟨"abc001_a", "abc001"⟩, ⟨"abc002_a", "abc002"⟩] []).1
      ⟨"abc002_a", "abc002"⟩ (by decide) ⟨"abc001_a", "abc001"⟩
      (by decide) (by decide) (by decide)).1,
    by decide,
    ((selection_order_amended 8 [100] [] [] "a" [] [] []
      [⟨100, "B", 800⟩, ⟨100, "A", 800⟩]).2.2
      ⟨100, "B", 800⟩ (by decide)).1 ⟨100, "A", 800⟩ (by decide) (by decide)
      (by decide)⟩

/-- C3 counterexample: the AtCoder axis test compares the whole index
segment, not only its first character — problem "abc100_c1" in the eligible
contest abc100 has an index key "c1" whose first character is the letter
'c', yet it does not qualify for task letter "c". -/
theorem index_letter_counterexample :
    Ac.candidate_keep "c" ["abc100"] ⟨"abc100_c1", "abc100"⟩ = false ∧
    (⟨"abc100_c1", "abc100"⟩ : Ac.AtcoderProblem).contest_id ∈ ["abc100"] ∧
    Ac.problem_index "abc100_c1" = some "c1" ∧
    "c1".toList.head? = some 'c' ∧
    ('c' : Char).toLower = 'c' :=
  ⟨by decide, by decide, rfl, by decide, by decide⟩

/-- C3 amended: the Codeforces index axis matches on the first character of
the index key alone (case-insensitively), while the AtCoder axis requires
the whole lowercased final index segment to equal the task letter, so
multi-character AtCoder index keys never match. -/
theorem index_axis_amended (letter : Char) (idx : String)
    (task_letter : String) (abc : List String) (p : Ac.AtcoderProblem) :
    (Cf.index_starts_with letter idx = true ↔
      ∃ c rest, idx.toList = c :: rest ∧ c.toUpper = letter) ∧
    (Ac.candidate_keep task_letter abc p = true ↔
      p.contest_id ∈ abc ∧ Ac.problem_index p.id = some task_letter) := by
  constructor
  · rcases hidx : idx.toList with _ | ⟨c, rest⟩
    · have hdata : idx.data = [] := hidx
      simp [Cf.index_starts_with, hdata]
    · have hdata : idx.data = c :: rest := hidx
      simp [Cf.index_starts_with, hdata]
  · exact candidate_keep_spec task_letter abc p

/-- C3 amended witness: "C1" matches letter C on Codeforces; "abc100_c"
matches letter c on AtCoder. -/
theorem index_axis_amended_witness :
    Cf.index_starts_with 'C' "C1" = true ∧
    Ac.candidate_keep "c" ["abc100"] ⟨"abc100_c", "abc100"⟩ = true :=
  ⟨(index_axis_amended 'C' "C1" "c" ["abc100"] ⟨"abc100_c", "abc100"⟩).1.mpr
      ⟨'C', ['1'], by decide, by decide⟩,
   (index_axis_amended 'C' "C1" "c" ["abc100"] ⟨"abc100_c", "abc100"⟩).2.mpr
      ⟨by decide, rfl⟩⟩

/-- C4 counterexample: a rating level below the valid range makes `run_level`
print an error message yet return `Ok(())` — the process exits zero, not
non-zero as claimed. -/
theorem exit_code_counterexample :
    Cf.run_level 7 [] [] [] = .ok Cf.Outcome.invalidLevel ∧
    exit_code (Cf.run_level 7 [] [] []) = 0 :=
  ⟨rfl, rfl⟩

/-- C4 amended: a malformed AtCoder index letter propagates as an error and
exits non-zero, but an out-of-range rating level prints an error and exits
zero (the handler returns success); the no-candidate outcome exits zero on
both platforms. -/
theorem exit_behavior_amended (level : Nat) (catalog : List Cf.Problem)
    (div2 : List Nat) (solved : List (Nat × String)) (input : String)
    (abc : List String) (problems : List Ac.AtcoderProblem)
    (asolved : List String) (e : String) :
    (level < 8 ∨ 32 < level →
      Cf.run_level level catalog div2 solved = .ok Cf.Outcome.invalidLevel ∧
      exit_code (Cf.run_level level catalog div2 solved) = 0) ∧
    (Ac.normalize_index input = .error e →
      Ac.run input abc problems asolved = .error e ∧
      exit_code (Ac.run input abc problems asolved) = 1) ∧
    (8 ≤ level → level ≤ 32 →
      Cf.run_level_best level div2 solved catalog = none →
      Cf.run_level level catalog div2 solved =
        .ok (Cf.Outcome.noProblem (level * 100)) ∧
      exit_code (Cf.run_level level catalog div2 solved) = 0) ∧
    (∀ t, Ac.normalize_index input = .ok t →
      Ac.select t abc asolved problems = none →
      Ac.run input abc problems asolved = .ok (Ac.Outcome.noProblem t) ∧
      exit_code (Ac.run input abc problems asolved) = 0) := by
  refine ⟨?_, ?_, ?_, ?_⟩
  · intro h
    have heq : Cf.run_level level catalog div2 solved = .ok .invalidLevel := by
      unfold Cf.run_level
      rw [if_pos h]
    exact ⟨heq, by rw [heq]; rfl⟩
  · intro h
    have heq : Ac.run input abc problems asolved = .error e := by
      unfold Ac.run
      rw [h]
    exact ⟨heq, by rw [heq]; rfl⟩
  · intro h8 h32 hnone
    have heq : Cf.run_level level catalog div2 solved =
        .ok (Cf.Outcome.noProblem (level * 100)) := by
      unfold Cf.run_level
      rw [if_neg (by omega : ¬ (level < 8 ∨ 32 < level))]
      rw [hnone]
    exact ⟨heq, by rw [heq]; rfl⟩
  · intro t ht hsel
    have heq : Ac.run input abc problems asolved =
        .ok (Ac.Outcome.noProblem t) := by
      unfold Ac.run
      rw [ht]
      show (match Ac.select t abc asolved problems with
        | some p => Except.ok (Ac.Outcome.found p)
        | none => Except.ok (Ac.Outcome.noProblem t)) =
        Except.ok (Ac.Outcome.noProblem t)
      rw [hsel]
    exact ⟨heq, by rw [heq]; rfl⟩

/-- C4 amended witness: level 7 exits zero; input "ab" errors and exits
non-zero. -/
theorem exit_behavior_amended_witness :
    ((7 : Nat) < 8 ∨ 32 < 7) ∧
    (Cf.run_level 7 [] [] [] = .ok Cf.Outcome.invalidLevel ∧
      exit_code (Cf.run_level 7 [] [] []) = 0) ∧
    (Ac.run "ab" [] [] [] =
        .error "Problem index must be a single letter (e.g., a, b, c)." ∧
      exit_code (Ac.run "ab" [] [] []) = 1) :=
  ⟨Or.inl (by decide),
   (exit_behavior_amended 7 [] [] [] "ab" [] [] []
      "Problem index must be a single letter (e.g., a, b, c).").1
      (Or.inl (by decide)),
   (exit_behavior_amended 7 [] [] [] "ab" [] [] []
      "Problem index must be a single letter (e.g., a, b, c).").2.1 rfl⟩

/-- The character list of a string concatenation splits into the two
character lists. -/
theorem string_toList_append (s t : String) :
    (s ++ t).toList = s.toList ++ t.toList := rfl

/-- C5 counterexample: (a) a per-element decode failure propagates the raw
decoder error, which carries no snippet of the response body — decoding
body "[0]" of a successful response with a decoder failing with "boom"
yields exactly "boom", and "boom" does not contain the body snippet; and
(b) the Codeforces fetch path never checks the HTTP status at all — a
non-success status 500 whose body still deserializes yields a plain `Ok`,
so no NetworkError with status and snippet is ever produced on those
consumed endpoints. -/
theorem decode_error_snippet_counterexample :
    Utils.parse_json_payload (fun _ => .ok (Json.arr [Json.num 0]))
      (fun _ => (.error "boom" : Except String Int)) "results" 200 "[0]" =
      .error "boom" ∧
    contains_seg "boom".toList (snippet "[0]").toList = false ∧
    status_success 500 = false ∧
    Cf.send_json (fun _ => (.ok 7 : Except String Int)) 500 "fail body" =
      .ok 7 ∧
    Cf.send_json (fun _ => (.error "expected value" : Except String Int))
      500 "fail body" = .error "expected value" :=
  ⟨rfl, by decide, by decide, rfl, rfl⟩

/-- C5 amended: on the endpoints routed through
`utils::parse_json_payload` a non-success HTTP status yields an error
carrying the status code and a ≤200-character snippet of the raw body, and
a JSON-parse failure yields an error carrying the same snippet, while a
per-element decode failure is returned as the bare decoder error without
snippet or label; the Codeforces endpoints bypass this entirely — their
`send()?.json()?` path never inspects the HTTP status (a non-success
response with a decodable body still succeeds) and surfaces any failure as
the bare deserialization error. -/
theorem error_reporting_amended {α : Type}
    (jparse : String → Except String Json) (dec : Json → Except String α)
    (label : String) (status : Nat) (text : String) :
    (status_success status = false →
      ∃ e, Utils.parse_json_payload jparse dec label status text = .error e ∧
        contains_seg e.toList (toString status).toList = true ∧
        contains_seg e.toList (snippet text).toList = true ∧
        (snippet text).toList.length ≤ 200) ∧
    (∀ err, status_success status = true → jparse text = .error err →
      ∃ e, Utils.parse_json_payload jparse dec label status text = .error e ∧
        contains_seg e.toList (snippet text).toList = true ∧
        (snippet text).toList.length ≤ 200) ∧
    (∀ elems e, status_success status = true →
      jparse text = .ok (Json.arr elems) →
      decode_items dec elems = .error e →
      Utils.parse_json_payload jparse dec label status text = .error e) ∧
    (∀ (jcf : String → Except String α) (v : α),
      status_success status = false → jcf text = .ok v →
      Cf.send_json jcf status text = .ok v) ∧
    (∀ (jcf : String → Except String α) (e : String),
      jcf text = .error e → Cf.send_json jcf status text = .error e) := by
  refine ⟨?_, ?_, ?_, ?_, ?_⟩
  · intro hbad
    have heq : Utils.parse_json_payload jparse dec label status text =
        .error ("Failed to fetch " ++ label ++ ": HTTP " ++ toString status ++
          ". Response starts with: " ++ snippet text) := by
      unfold Utils.parse_json_payload
      rw [if_pos hbad]
    refine ⟨_, heq, ?_, ?_, snippet_length_le text⟩
    · have hshape : ("Failed to fetch " ++ label ++ ": HTTP " ++
          toString status ++ ". Response starts with: " ++ snippet text).toList =
          ("Failed to fetch " ++ label ++ ": HTTP ").toList ++
            (toString status).toList ++
            (". Response starts with: " ++ snippet text).toList := by
        simp [string_toList_append, List.append_assoc]
      rw [hshape]
      exact contains_seg_of_split _ _ _
    · have hshape : ("Failed to fetch " ++ label ++ ": HTTP " ++
          toString status ++ ". Response starts with: " ++ snippet text).toList =
          ("Failed to fetch " ++ label ++ ": HTTP " ++ toString status ++
            ". Response starts with: ").toList ++ (snippet text).toList ++
            ([] : List Char) := by
        simp [string_toList_append, List.append_assoc]
      rw [hshape]
      exact contains_seg_of_split _ _ _
  · intro err hgood hjp
    have heq : Utils.parse_json_payload jparse dec label status text =
        .error ("Failed to parse " ++ label ++ " as JSON: " ++ err ++
          ". Response starts with: " ++ snippet text) := by
      unfold Utils.parse_json_payload
      rw [if_neg (by simp [hgood]), hjp]
    refine ⟨_, heq, ?_, snippet_length_le text⟩
    have hshape : ("Failed to parse " ++ label ++ " as JSON: " ++ err ++
        ". Response starts with: " ++ snippet text).toList =
        ("Failed to parse " ++ label ++ " as JSON: " ++ err ++
          ". Response starts with: ").toList ++ (snippet text).toList ++
          ([] : List Char) := by
      simp [string_toList_append, List.append_assoc]
    rw [hshape]
    exact contains_seg_of_split _ _ _
  · intro elems e hgood hjp hdec
    unfold Utils.parse_json_payload
    rw [if_neg (by simp [hgood]), hjp]
    exact hdec
  · intro jcf v _ hok
    exact hok
  · intro jcf e herr
    exact herr

/-- C5 amended witness: HTTP 404 with body "oops" on the parse_json_payload
path, and the status-blind Codeforces path succeeding on a 404. -/
theorem error_reporting_amended_witness :
    status_success 404 = false ∧
    (∃ e, Utils.parse_json_payload (fun _ => .ok Json.null)
        (fun _ => (.error "x" : Except String Int)) "contests.json" 404
        "oops" = .error e ∧
      contains_seg e.toList (toString 404).toList = true ∧
      contains_seg e.toList (snippet "oops").toList = true ∧
      (snippet "oops").toList.length ≤ 200) ∧
    Cf.send_json (fun _ => (.ok ([] : List Int))) 404 "oops" = .ok [] :=
  ⟨by decide,
   (error_reporting_amended (fun _ => .ok Json.null)
      (fun _ => (.error "x" : Except String Int)) "contests.json" 404
      "oops").1 (by decide),
   (error_reporting_amended (fun _ => .ok Json.null)
      (fun _ => (.error "x" : Except String (List Int))) "contests.json" 404
      "oops").2.2.2.1 (fun _ => .ok []) [] (by decide) rfl⟩

/-- Successful decodes of permuted item lists have the same multiset of
results. -/
theorem decode_items_perm_multiset {α : Type} (dec : Json → Except String α)
    (l1 l2 : List Json) (r1 r2 : List α) (hperm : List.Perm l1 l2)
    (h1 : decode_items dec l1 = .ok r1) (h2 : decode_items dec l2 = .ok r2) :
    Multiset.ofList r1 = Multiset.ofList r2 := by
  rw [decode_items_ok dec l1 r1 h1, decode_items_ok dec l2 r2 h2]
  exact Multiset.coe_eq_coe.mpr (hperm.filterMap _)

/-- C9: an object-shaped payload decodes to the same element multiset as the
array of its values, and object payloads whose entry lists are permutations
of one another decode to the same element multiset — key order is
irrelevant. -/
theorem payload_shape_multiset {α : Type}
    (jparse : String → Except String Json) (dec : Json → Except String α)
    (label : String) (status : Nat) (t1 t2 : String)
    (kvs kvs2 : List (String × Json)) (r1 r2 : List α) :
    (status_success status = true →
      jparse t1 = .ok (Json.obj kvs) →
      jparse t2 = .ok (Json.arr (kvs.map Prod.snd)) →
      Utils.parse_json_payload jparse dec label status t1 = .ok r1 →
      Utils.parse_json_payload jparse dec label status t2 = .ok r2 →
      Multiset.ofList r1 = Multiset.ofList r2) ∧
    (status_success status = true →
      jparse t1 = .ok (Json.obj kvs) →
      jparse t2 = .ok (Json.obj kvs2) →
      List.Perm kvs kvs2 →
      Utils.parse_json_payload jparse dec label status t1 = .ok r1 →
      Utils.parse_json_payload jparse dec label status t2 = .ok r2 →
      Multiset.ofList r1 = Multiset.ofList r2) := by
  constructor
  · intro hgood hj1 hj2 hp1 hp2
    unfold Utils.parse_json_payload at hp1 hp2
    rw [if_neg (by simp [hgood]), hj1] at hp1
    rw [if_neg (by simp [hgood]), hj2] at hp2
    exact decode_items_perm_multiset dec _ _ r1 r2
      ((List.perm_insertionSort key_le kvs).map Prod.snd) hp1 hp2
  · intro hgood hj1 hj2 hperm hp1 hp2
    unfold Utils.parse_json_payload at hp1 hp2
    rw [if_neg (by simp [hgood]), hj1] at hp1
    rw [if_neg (by simp [hgood]), hj2] at hp2
    exact decode_items_perm_multiset dec _ _ r1 r2
      (((List.perm_insertionSort key_le kvs).map Prod.snd).trans
        ((hperm.map Prod.snd).trans
          ((List.perm_insertionSort key_le kvs2).map Prod.snd).symm)) hp1 hp2

/-- C9 witness: object {"k2": 2, "k1": 1} versus array [2, 1]. -/
theorem payload_shape_multiset_witness :
    Utils.parse_json_payload
      (fun t => if t = "o" then
          .ok (Json.obj [("k2", Json.num 2), ("k1", Json.num 1)])
        else .ok (Json.arr [Json.num 2, Json.num 1]))
      (fun j => match j with
        | Json.num n => .ok n
        | _ => (.error "bad" : Except String Int))
      "problems.json" 200 "o" = .ok [1, 2] ∧
    Utils.parse_json_payload
      (fun t => if t = "o" then
          .ok (Json.obj [("k2", Json.num 2), ("k1", Json.num 1)])
        else .ok (Json.arr [Json.num 2, Json.num 1]))
      (fun j => match j with
        | Json.num n => .ok n
        | _ => (.error "bad" : Except String Int))
      "problems.json" 200 "a" = .ok [2, 1] ∧
    Multiset.ofList [1, 2] = Multiset.ofList ([2, 1] : List Int) :=
  ⟨rfl, rfl,
   (payload_shape_multiset
      (fun t => if t = "o" then
          .ok (Json.obj [("k2", Json.num 2), ("k1", Json.num 1)])
        else .ok (Json.arr [Json.num 2, Json.num 1]))
      (fun j => match j with
        | Json.num n => .ok n
        | _ => (.error "bad" : Except String Int))
      "problems.json" 200 "o" "a" [("k2", Json.num 2), ("k1", Json.num 1)]
      [] [1, 2] [2, 1]).1 (by decide) rfl rfl rfl rfl⟩
